import Mathlib

/-!
# Seed-space enumeration of `Backends/Basic.c`

A shallow embedding of the seed source (`getNextSeed`), the result sink
(`outputValues`), the driver (`main`), the range macro
`CHECK_THIS_SEED_AND_FOLLOWING` and the host emulation of the CUDA atomics
(`atomicAdd`, `atomicOr`), followed by the properties proved about them.

`uint64_t` values are natural numbers below `2 ^ 64`; every operation that can
wrap reduces modulo `2 ^ 64` explicitly.  A C `int` is an `Int`.
-/

namespace SeedFinding

/-! ## Machine arithmetic -/

/-- The largest `uint64_t`. -/
def UINT64_MAX : Nat := 2 ^ 64 - 1

/-- Conversion of a signed integer to `uint64_t` (reduction modulo `2 ^ 64`),
as C performs it when an `int` meets a `uint64_t` operand. -/
def toU64 (z : Int) : Nat := (z % 2 ^ 64).toNat

/-- Addition of two `uint64_t` values. -/
def add64 (a b : Nat) : Nat := (a + b) % 2 ^ 64

/-- Subtraction of two `uint64_t` values. -/
def sub64 (a b : Nat) : Nat := (a + (2 ^ 64 - b % 2 ^ 64)) % 2 ^ 64

/-- The C operator `!` on an integer: `1` for zero, `0` otherwise. -/
def logicalNot (x : Nat) : Nat := if x = 0 then 1 else 0

/-- The macro of `common_seedfinding.h`:
`UINT64_MAX - startSeed + (!!startSeed)`, evaluated in `uint64_t`. -/
def CHECK_THIS_SEED_AND_FOLLOWING (startSeed : Nat) : Nat :=
  add64 (sub64 UINT64_MAX startSeed) (logicalNot (logicalNot startSeed))

/-! ## Settings and process state -/

/-- The constants a filtering program supplies, after `initGlobals` and
`DEFAULT_LOCALS_INITIALIZATION` have run. -/
structure Settings where
  INPUT_FILEPATH : Option String
  OUTPUT_FILEPATH : Option String
  TIME_PROGRAM : Bool
  localStartSeed : Nat
  localSeedsToCheck : Nat
  localNumberOfWorkers : Int
deriving DecidableEq

/-- The mutable state of the process.  `inputFile` holds the tokens of the seed
list that `fscanf` has not consumed yet, `outputFile` and `stdout` the records
written so far, `stderr` the diagnostics.  `examined` is a ghost trace of the
candidates the worker loop has looked at. -/
structure World where
  inputFile : List Int
  outputFile : List Nat
  stdout : List Nat
  stderr : List String
  examined : List Nat
deriving DecidableEq

/-- The state in which `main` starts. -/
def initialWorld : World := ⟨[], [], [], [], []⟩

/-- What the file system answers to the two `fopen` calls of `main`:
`openInput` is `none` when `fopen(INPUT_FILEPATH, "r")` returns `NULL` and the
list of seeds in the file otherwise, `openOutput` tells whether
`fopen(OUTPUT_FILEPATH, "w")` succeeds. -/
structure Files where
  openInput : Option (List Int)
  openOutput : Bool
deriving DecidableEq

/-! ## Seed source and result sink (`Backends/Basic.c`) -/

/-- The function `getNextSeed` of `Backends/Basic.c`.  With an input file one
seed is scanned from it (the result is whether `fscanf` converted one item).
Otherwise `*seed` becomes `*workerIndex + localStartSeed` when `workerIndex` is
not `NULL` and `*seed + localNumberOfWorkers` when it is, and the result is
`*seed - localStartSeed < localSeedsToCheck`.  Returns the result, the new
`*seed` and the new state. -/
def getNextSeed (s : Settings) (workerIndex : Option Int) (seed : Nat) (w : World) :
    Bool × Nat × World :=
  match s.INPUT_FILEPATH with
  | some _ =>
    match w.inputFile with
    | [] => (false, seed, w)
    | x :: rest => (true, toU64 x, { w with inputFile := rest })
  | none =>
    let seed1 :=
      match workerIndex with
      | some i => add64 (toU64 i) s.localStartSeed
      | none => add64 seed (toU64 s.localNumberOfWorkers)
    (decide (sub64 seed1 s.localStartSeed < s.localSeedsToCheck), seed1, w)

/-- The function `outputValues` of `Backends/Basic.c`: the record goes to
`outputFile` when `OUTPUT_FILEPATH` is set and to `stdout` otherwise.  A record
is represented by the value it reports. -/
def outputValues (s : Settings) (record : Nat) (w : World) : World :=
  match s.OUTPUT_FILEPATH with
  | some _ => { w with outputFile := w.outputFile ++ [record] }
  | none => { w with stdout := w.stdout ++ [record] }

/-- The records emitted so far, whichever destination is configured. -/
def emitted (s : Settings) (w : World) : List Nat :=
  match s.OUTPUT_FILEPATH with
  | some _ => w.outputFile
  | none => w.stdout

/-! ## The worker loop -/

/-- Modelled from the spec: the body of the do-while loop that the comment on
`runWorker` recommends (the filtering program that defines it is absent): the
candidate `seed` is examined, and `outputValues` is called with it when it
meets the conditions `cond`. -/
def examine (s : Settings) (cond : Nat → Bool) (seed : Nat) (w : World) : World :=
  let w1 := { w with examined := w.examined ++ [seed] }
  if cond seed then outputValues s seed w1 else w1

/-- The loop body run on the candidates of a list, in order. -/
def examineAll (s : Settings) (cond : Nat → Bool) (w : World) (seeds : List Nat) : World :=
  seeds.foldl (fun acc v => examine s cond v acc) w

/-- Modelled from the spec: the do-while loop of `runWorker` as the comment on
its declaration recommends it (the filtering program that defines it is
absent): examine `seed`, call `outputValues` when the condition holds, then ask
`getNextSeed(NULL, &seed)` and stop when it returns false.  `none` means the
fuel ran out before the loop ended. -/
def workerLoop (s : Settings) (cond : Nat → Bool) : Nat → Nat → World → Option World
  | 0, _, _ => none
  | fuel + 1, seed, w =>
    match getNextSeed s none seed (examine s cond seed w) with
    | (true, seed1, w3) => workerLoop s cond fuel seed1 w3
    | (false, _, w3) => some w3

/-- Modelled from the spec: the body of `runWorker`, which the filtering
program defines and `common_seedfinding.h` only declares.  It follows the loop
that the comment on that declaration recommends and that the specification
describes as the worker loop: fetch the first seed with
`getNextSeed(workerIndex, &seed)` and return if that fails, otherwise run the
do-while loop.  The local `seed` starts uninitialised; it is written before it
is read, and `0` stands for its initial content. -/
def runWorker (s : Settings) (cond : Nat → Bool) (fuel : Nat) (workerIndex : Int)
    (w : World) : Option World :=
  match getNextSeed s (some workerIndex) 0 w with
  | (true, seed, w1) => workerLoop s cond fuel seed w1
  | (false, _, w1) => some w1

/-- The candidates worker `workerIndex` visits when it runs alone from the
initial state (`none`: the loop is still running when the fuel ends). -/
def visits (s : Settings) (fuel : Nat) (workerIndex : Int) : Option (List Nat) :=
  (runWorker s (fun _ => false) fuel workerIndex initialWorld).map World.examined

/-- The candidates visited by the workers `0, …, n - 1`, every worker running
the loop on its own index, listed worker after worker. -/
def visitsOfWorkers (s : Settings) (fuel : Nat) : Nat → Option (List Nat)
  | 0 => some []
  | n + 1 =>
    match visitsOfWorkers s fuel n, visits s fuel (n : Int) with
    | some acc, some l => some (acc ++ l)
    | _, _ => none

/-! ## The computed range, as the specification describes it -/

/-- The ranges of the C types: `uint64_t` for the start seed and the number of
seeds, `int` for the number of workers. -/
def Settings.WellTyped (s : Settings) : Prop :=
  s.localStartSeed < 2 ^ 64 ∧ s.localSeedsToCheck < 2 ^ 64 ∧
    -2 ^ 31 ≤ s.localNumberOfWorkers ∧ s.localNumberOfWorkers < 2 ^ 31

/-- The strided sequence of the specification: candidate number `k` of worker
`i` is `startValue + i + k * workerCount`, as a `uint64_t`. -/
def candidate (s : Settings) (i k : Nat) : Nat :=
  (s.localStartSeed + i + k * s.localNumberOfWorkers.toNat) % 2 ^ 64

/-- The number of candidates of worker `i` inside the space:
`ceil((spaceSize - i) / workerCount)` when `i < spaceSize`, and `0` otherwise. -/
def visitCount (s : Settings) (i : Nat) : Nat :=
  if i < s.localSeedsToCheck then
    (s.localSeedsToCheck - i + s.localNumberOfWorkers.toNat - 1) / s.localNumberOfWorkers.toNat
  else 0

/-- The search space of the specification: `startValue, startValue + 1, …,
startValue + spaceSize - 1`, as `uint64_t` values. -/
def searchSpace (s : Settings) : List Nat :=
  (List.range s.localSeedsToCheck).map (fun k => (s.localStartSeed + k) % 2 ^ 64)

/-! ## The driver (`main` of `Backends/Basic.c`) -/

/-- How a run of `main` ends: the exit status, the final state and the worker
indices `main` passed to `runWorker`, in order. -/
structure Outcome where
  exitCode : Int
  world : World
  workerCalls : List Int
deriving DecidableEq

/-- The macro `RAISE_EXCEPTION_OR_QUIT` as it expands in C: print the message
to `stderr`, then `exit(1)`. -/
def RAISE_EXCEPTION_OR_QUIT (message : String) (w : World) : Outcome :=
  { exitCode := 1, world := { w with stderr := w.stderr ++ [message] }, workerCalls := [] }

/-- The function `main` of `Backends/Basic.c`.  `worker` is the `runWorker` of
the filtering program; it yields `none` when it does not return. -/
def main (s : Settings) (fs : Files) (worker : Int → World → Option World) :
    Option Outcome :=
  let w0 := initialWorld
  let afterInput : Except Outcome World :=
    match s.INPUT_FILEPATH with
    | some path =>
      match fs.openInput with
      | some seeds => .ok { w0 with inputFile := seeds }
      | none => .error (RAISE_EXCEPTION_OR_QUIT
          ("Backends/Basic.c: main(): fopen(INPUT_FILEPATH, \"r\"): Failed to open "
            ++ path ++ ".\n") w0)
    | none => .ok w0
  match afterInput with
  | .error o => some o
  | .ok w1 =>
    let afterOutput : Except Outcome World :=
      match s.OUTPUT_FILEPATH with
      | some path =>
        if fs.openOutput then .ok w1
        else .error (RAISE_EXCEPTION_OR_QUIT
          ("Backends/Basic.c: main(): fopen(OUTPUT_FILEPATH, \"w\"): Failed to open "
            ++ path ++ ".\n") w1)
      | none => .ok w1
    match afterOutput with
    | .error o => some o
    | .ok w2 =>
      let data : Int := 0
      match worker data w2 with
      | none => none
      | some w3 =>
        let w4 :=
          if s.TIME_PROGRAM then { w3 with stderr := w3.stderr ++ ["(elapsed seconds)\n"] }
          else w3
        some { exitCode := 0, world := w4, workerCalls := [data] }

/-! ## Host emulation of the CUDA atomics -/

/-- The memory the emulated atomics share: the word at `address` and the global
`__mutex` (the thread that holds it, if any). -/
structure Heap where
  cell : Nat
  mutexOwner : Option Nat
deriving DecidableEq

/-- One activation of `atomicAdd` or `atomicOr`: the next statement to run
(`0`: `__temp = *address`, `1`: `pthread_mutex_lock`, `2`: the update of
`*address`, `3`: `pthread_mutex_unlock`, `4`: `return __temp`) and the local
`__temp`. -/
structure Frame where
  pc : Nat
  temp : Nat
deriving DecidableEq

/-- One statement of `atomicAdd(address, value)` run by thread `tid`.  A thread
that finds the mutex taken stays where it is. -/
def atomicAddStep (value : Int) (tid : Nat) (h : Heap) (f : Frame) : Heap × Frame :=
  match f.pc with
  | 0 => (h, { pc := 1, temp := h.cell })
  | 1 =>
    match h.mutexOwner with
    | none => ({ h with mutexOwner := some tid }, { f with pc := 2 })
    | some _ => (h, f)
  | 2 => ({ h with cell := add64 h.cell (toU64 value) }, { f with pc := 3 })
  | 3 => ({ h with mutexOwner := none }, { f with pc := 4 })
  | _ => (h, f)

/-- One statement of `atomicOr(address, value)` run by thread `tid`. -/
def atomicOrStep (value : Nat) (tid : Nat) (h : Heap) (f : Frame) : Heap × Frame :=
  match f.pc with
  | 0 => (h, { pc := 1, temp := h.cell })
  | 1 =>
    match h.mutexOwner with
    | none => ({ h with mutexOwner := some tid }, { f with pc := 2 })
    | some _ => (h, f)
  | 2 => ({ h with cell := h.cell ||| value }, { f with pc := 3 })
  | 3 => ({ h with mutexOwner := none }, { f with pc := 4 })
  | _ => (h, f)

/-- Runs `n` statements of one activation. -/
def runFrame (step : Heap → Frame → Heap × Frame) : Nat → Heap → Frame → Heap × Frame
  | 0, h, f => (h, f)
  | n + 1, h, f => runFrame step n (step h f).1 (step h f).2

/-- A call `atomicAdd(address, value)` with no other thread running: the
returned value and the content of `*address` afterwards. -/
def atomicAdd (old : Nat) (value : Int) : Nat × Nat :=
  let r := runFrame (atomicAddStep value 0) 4 { cell := old, mutexOwner := none } ⟨0, 0⟩
  (r.2.temp, r.1.cell)

/-- A call `atomicOr(address, value)` with no other thread running: the
returned value and the content of `*address` afterwards. -/
def atomicOr (old : Nat) (value : Nat) : Nat × Nat :=
  let r := runFrame (atomicOrStep value 0) 4 { cell := old, mutexOwner := none } ⟨0, 0⟩
  (r.2.temp, r.1.cell)

/-- Several threads inside `atomicAdd(address, value)` at once: the shared
memory and the activation of every thread. -/
structure AddSystem where
  heap : Heap
  frames : List Frame
deriving DecidableEq

/-- Thread `tid` runs its next statement. -/
def AddSystem.step (value : Int) (σ : AddSystem) (tid : Nat) : AddSystem :=
  match σ.frames.get? tid with
  | none => σ
  | some f =>
    let r := atomicAddStep value tid σ.heap f
    { heap := r.1, frames := σ.frames.set tid r.2 }

/-- Runs the threads in the order the schedule names them, one statement at a
time. -/
def AddSystem.run (value : Int) (σ : AddSystem) (schedule : List Nat) : AddSystem :=
  schedule.foldl (AddSystem.step value) σ

/-- The start of `k` concurrent calls on a counter holding `counter`: the `k`
threads are all about to run their first statement and the mutex is free. -/
def AddSystem.start (counter k : Nat) : AddSystem :=
  { heap := { cell := counter, mutexOwner := none }, frames := List.replicate k ⟨0, 0⟩ }

/-! ## Machine arithmetic: auxiliary facts -/

theorem toU64_natCast (n : Nat) : toU64 (n : Int) = n % 2 ^ 64 := by
  unfold toU64
  omega

theorem toU64_of_nonneg (z : Int) (h0 : 0 ≤ z) (h : z < 2 ^ 64) : toU64 z = z.toNat := by
  unfold toU64
  omega

theorem sub64_add_left (a x : Nat) :
    sub64 ((a + x) % 2 ^ 64) a = x % 2 ^ 64 := by
  unfold sub64
  omega

theorem stride_shift (seed W k : Nat) :
    ((seed + W) % 2 ^ 64 + k * W) % 2 ^ 64 = (seed + (k + 1) * W) % 2 ^ 64 := by
  have h : (k + 1) * W = k * W + W := by ring
  rw [h]
  omega

/-! ## The seed source without an input file -/

theorem getNextSeed_first (s : Settings) (hB : s.INPUT_FILEPATH = none) (i : Int)
    (seed : Nat) (w : World) :
    getNextSeed s (some i) seed w =
      (decide (sub64 (add64 (toU64 i) s.localStartSeed) s.localStartSeed
        < s.localSeedsToCheck), add64 (toU64 i) s.localStartSeed, w) := by
  simp [getNextSeed, hB]

theorem getNextSeed_next (s : Settings) (hB : s.INPUT_FILEPATH = none) (seed : Nat)
    (w : World) :
    getNextSeed s none seed w =
      (decide (sub64 (add64 seed (toU64 s.localNumberOfWorkers)) s.localStartSeed
        < s.localSeedsToCheck), add64 seed (toU64 s.localNumberOfWorkers), w) := by
  simp [getNextSeed, hB]

/-! ## The worker loop over a computed range -/

theorem examineAll_nil (s : Settings) (cond : Nat → Bool) (w : World) :
    examineAll s cond w [] = w := rfl

theorem examineAll_cons (s : Settings) (cond : Nat → Bool) (w : World) (v : Nat)
    (l : List Nat) :
    examineAll s cond w (v :: l) = examineAll s cond (examine s cond v w) l := rfl

theorem workerLoop_run (s : Settings) (hB : s.INPUT_FILEPATH = none) (cond : Nat → Bool) :
    ∀ (n fuel seed : Nat) (w : World), seed < 2 ^ 64 →
      (∀ k, k < n →
        sub64 ((seed + (k + 1) * toU64 s.localNumberOfWorkers) % 2 ^ 64) s.localStartSeed
          < s.localSeedsToCheck) →
      s.localSeedsToCheck ≤
        sub64 ((seed + (n + 1) * toU64 s.localNumberOfWorkers) % 2 ^ 64) s.localStartSeed →
      n + 1 ≤ fuel →
      workerLoop s cond fuel seed w = some (examineAll s cond w
        ((List.range (n + 1)).map
          (fun k => (seed + k * toU64 s.localNumberOfWorkers) % 2 ^ 64))) := by
  intro n
  induction n with
  | zero =>
    intro fuel seed w hseed _ hout hfuel
    obtain ⟨f, rfl⟩ : ∃ f, fuel = f + 1 := ⟨fuel - 1, by omega⟩
    have hnot : ¬ sub64 (add64 seed (toU64 s.localNumberOfWorkers)) s.localStartSeed
        < s.localSeedsToCheck := by
      have h := hout
      simp only [Nat.zero_add, Nat.one_mul] at h
      unfold add64
      omega
    have h0 : (seed + 0 * toU64 s.localNumberOfWorkers) % 2 ^ 64 = seed := by
      rw [Nat.zero_mul, Nat.add_zero]
      exact Nat.mod_eq_of_lt hseed
    have hlist : (List.range (0 + 1)).map
        (fun k => (seed + k * toU64 s.localNumberOfWorkers) % 2 ^ 64) = [seed] := by
      show [(seed + 0 * toU64 s.localNumberOfWorkers) % 2 ^ 64] = [seed]
      rw [h0]
    rw [hlist]
    simp [workerLoop, getNextSeed_next s hB, hnot, examineAll]
  | succ n ih =>
    intro fuel seed w hseed hin hout hfuel
    obtain ⟨f, rfl⟩ : ∃ f, fuel = f + 1 := ⟨fuel - 1, by omega⟩
    have hyes : sub64 (add64 seed (toU64 s.localNumberOfWorkers)) s.localStartSeed
        < s.localSeedsToCheck := by
      have h := hin 0 (by omega)
      simp only [Nat.zero_add, Nat.one_mul] at h
      unfold add64
      exact h
    have hrec := ih f (add64 seed (toU64 s.localNumberOfWorkers))
      (examine s cond seed w) (Nat.mod_lt _ (by norm_num))
      (by
        intro k hk
        have h := hin (k + 1) (by omega)
        unfold add64
        rw [stride_shift]
        exact h)
      (by
        unfold add64
        rw [stride_shift]
        exact hout)
      (by omega)
    have h0 : (seed + 0 * toU64 s.localNumberOfWorkers) % 2 ^ 64 = seed := by
      rw [Nat.zero_mul, Nat.add_zero]
      exact Nat.mod_eq_of_lt hseed
    have hlist : (List.range (n + 1 + 1)).map
        (fun k => (seed + k * toU64 s.localNumberOfWorkers) % 2 ^ 64)
        = seed :: (List.range (n + 1)).map
          (fun k => (add64 seed (toU64 s.localNumberOfWorkers)
            + k * toU64 s.localNumberOfWorkers) % 2 ^ 64) := by
      rw [List.range_succ_eq_map, List.map_cons, h0, List.map_map]
      congr 1
      apply List.map_congr_left
      intro k _
      unfold add64
      simp only [Function.comp, Nat.succ_eq_add_one]
      rw [stride_shift]
    rw [hlist, examineAll_cons, ← hrec]
    simp [workerLoop, getNextSeed_next s hB, hyes]

theorem candidate_eq (s : Settings) (hs : s.WellTyped) (hw : 0 ≤ s.localNumberOfWorkers)
    (i k : Nat) :
    candidate s i k
      = (add64 (toU64 (i : Int)) s.localStartSeed
          + k * toU64 s.localNumberOfWorkers) % 2 ^ 64 := by
  obtain ⟨_, _, _, h4⟩ := hs
  have hW : toU64 s.localNumberOfWorkers = s.localNumberOfWorkers.toNat :=
    toU64_of_nonneg _ hw (by omega)
  rw [hW, toU64_natCast]
  unfold candidate add64
  omega

theorem runWorker_cut (s : Settings) (hB : s.INPUT_FILEPATH = none) (hs : s.WellTyped)
    (hw : 0 ≤ s.localNumberOfWorkers) (cond : Nat → Bool) (i n fuel : Nat) (w : World)
    (hin : ∀ k, k < n → sub64 (candidate s i k) s.localStartSeed < s.localSeedsToCheck)
    (hout : s.localSeedsToCheck ≤ sub64 (candidate s i n) s.localStartSeed)
    (hfuel : n ≤ fuel) :
    runWorker s cond fuel (i : Int) w
      = some (examineAll s cond w ((List.range n).map (candidate s i))) := by
  have hc0 : candidate s i 0 = add64 (toU64 (i : Int)) s.localStartSeed := by
    rw [candidate_eq s hs hw]
    rw [Nat.zero_mul, Nat.add_zero]
    exact Nat.mod_eq_of_lt (Nat.mod_lt _ (by norm_num))
  cases n with
  | zero =>
    have hnot : ¬ sub64 (add64 (toU64 (i : Int)) s.localStartSeed) s.localStartSeed
        < s.localSeedsToCheck := by
      rw [← hc0]
      omega
    simp [runWorker, getNextSeed_first s hB, hnot, examineAll]
  | succ m =>
    have hyes : sub64 (add64 (toU64 (i : Int)) s.localStartSeed) s.localStartSeed
        < s.localSeedsToCheck := by
      rw [← hc0]
      exact hin 0 (by omega)
    have hrun := workerLoop_run s hB cond m fuel
      (add64 (toU64 (i : Int)) s.localStartSeed) w (Nat.mod_lt _ (by norm_num))
      (by
        intro k hk
        rw [← candidate_eq s hs hw]
        exact hin (k + 1) (by omega))
      (by
        rw [← candidate_eq s hs hw]
        exact hout)
      hfuel
    have hfun : (fun k => (add64 (toU64 (i : Int)) s.localStartSeed
        + k * toU64 s.localNumberOfWorkers) % 2 ^ 64) = candidate s i := by
      funext k
      exact (candidate_eq s hs hw i k).symm
    rw [hfun] at hrun
    simp [runWorker, getNextSeed_first s hB, hyes, hrun]

/-! ## What the loop body leaves in the state -/

theorem examine_examined (s : Settings) (cond : Nat → Bool) (v : Nat) (w : World) :
    (examine s cond v w).examined = w.examined ++ [v] := by
  unfold examine outputValues
  cases cond v <;> cases s.OUTPUT_FILEPATH <;> rfl

theorem examine_emitted (s : Settings) (cond : Nat → Bool) (v : Nat) (w : World) :
    emitted s (examine s cond v w) = emitted s w ++ (if cond v then [v] else []) := by
  unfold examine outputValues emitted
  cases cond v <;> cases s.OUTPUT_FILEPATH <;> simp

theorem examineAll_examined (s : Settings) (cond : Nat → Bool) (l : List Nat) :
    ∀ w : World, (examineAll s cond w l).examined = w.examined ++ l := by
  induction l with
  | nil => intro w; simp [examineAll]
  | cons v l ih =>
    intro w
    rw [examineAll_cons, ih, examine_examined, List.append_assoc]
    rfl

theorem examineAll_emitted (s : Settings) (cond : Nat → Bool) (l : List Nat) :
    ∀ w : World, emitted s (examineAll s cond w l) = emitted s w ++ l.filter cond := by
  induction l with
  | nil => intro w; simp [examineAll]
  | cons v l ih =>
    intro w
    rw [examineAll_cons, ih, examine_emitted, List.append_assoc]
    cases h : cond v <;> simp [List.filter, h]

/-! ## More fuel does not change a finished run -/

theorem workerLoop_mono (s : Settings) (cond : Nat → Bool) (d : Nat) :
    ∀ (fuel seed : Nat) (w r : World), workerLoop s cond fuel seed w = some r →
      workerLoop s cond (fuel + d) seed w = some r := by
  intro fuel
  induction fuel with
  | zero =>
    intro seed w r h
    simp [workerLoop] at h
  | succ f ih =>
    intro seed w r h
    have e : f + 1 + d = (f + d) + 1 := by omega
    rw [e]
    unfold workerLoop at h ⊢
    rcases hg : getNextSeed s none seed (examine s cond seed w) with ⟨b, seed1, w3⟩
    rw [hg] at h
    cases b with
    | true => exact ih seed1 w3 r h
    | false => exact h

theorem runWorker_mono (s : Settings) (cond : Nat → Bool) (fuel d : Nat) (i : Int)
    (w r : World) (h : runWorker s cond fuel i w = some r) :
    runWorker s cond (fuel + d) i w = some r := by
  unfold runWorker at h ⊢
  rcases hg : getNextSeed s (some i) 0 w with ⟨b, seed1, w1⟩
  rw [hg] at h
  cases b with
  | true => exact workerLoop_mono s cond d fuel seed1 w1 r h
  | false => exact h

theorem visits_mono (s : Settings) (fuel d : Nat) (i : Int) (l : List Nat)
    (h : visits s fuel i = some l) : visits s (fuel + d) i = some l := by
  unfold visits at h ⊢
  cases hr : runWorker s (fun _ => false) fuel i initialWorld with
  | none => rw [hr] at h; simp at h
  | some r =>
    rw [hr] at h
    rw [runWorker_mono s _ fuel d i initialWorld r hr]
    exact h

theorem visits_unique (s : Settings) (f1 f2 : Nat) (i : Int) (l1 l2 : List Nat)
    (h1 : visits s f1 i = some l1) (h2 : visits s f2 i = some l2) : l1 = l2 := by
  rcases Nat.le_total f1 f2 with h | h
  · have e := visits_mono s f1 (f2 - f1) i l1 h1
    rw [show f1 + (f2 - f1) = f2 by omega, h2] at e
    exact (Option.some.inj e).symm
  · have e := visits_mono s f2 (f1 - f2) i l2 h2
    rw [show f2 + (f1 - f2) = f1 by omega, h1] at e
    exact Option.some.inj e

theorem visits_cut (s : Settings) (hB : s.INPUT_FILEPATH = none) (hs : s.WellTyped)
    (hw : 0 ≤ s.localNumberOfWorkers) (i n fuel : Nat)
    (hin : ∀ k, k < n → sub64 (candidate s i k) s.localStartSeed < s.localSeedsToCheck)
    (hout : s.localSeedsToCheck ≤ sub64 (candidate s i n) s.localStartSeed)
    (hfuel : n ≤ fuel) :
    visits s fuel (i : Int) = some ((List.range n).map (candidate s i)) := by
  unfold visits
  rw [runWorker_cut s hB hs hw _ i n fuel initialWorld hin hout hfuel]
  simp [examineAll_examined, initialWorld]

/-! ## Counting the candidates of a worker -/

theorem lt_visitCount_iff (s : Settings) (hw : 1 ≤ s.localNumberOfWorkers) (i k : Nat) :
    k < visitCount s i ↔ i + k * s.localNumberOfWorkers.toNat < s.localSeedsToCheck := by
  have hW : 0 < s.localNumberOfWorkers.toNat := by omega
  unfold visitCount
  by_cases hi : i < s.localSeedsToCheck
  · rw [if_pos hi, Nat.lt_iff_add_one_le, Nat.le_div_iff_mul_le hW]
    have e : (k + 1) * s.localNumberOfWorkers.toNat
        = k * s.localNumberOfWorkers.toNat + s.localNumberOfWorkers.toNat := by ring
    rw [e]
    omega
  · rw [if_neg hi]
    constructor
    · intro h; omega
    · intro h
      have : 0 ≤ k * s.localNumberOfWorkers.toNat := Nat.zero_le _
      omega

theorem visitCount_le (s : Settings) (hw : 1 ≤ s.localNumberOfWorkers) (i : Nat) :
    visitCount s i ≤ s.localSeedsToCheck := by
  by_contra hcon
  have h1 : s.localSeedsToCheck < visitCount s i := by omega
  have h2 := (lt_visitCount_iff s hw i s.localSeedsToCheck).1 h1
  have hW : 1 ≤ s.localNumberOfWorkers.toNat := by omega
  have h3 : s.localSeedsToCheck * 1 ≤ s.localSeedsToCheck * s.localNumberOfWorkers.toNat :=
    Nat.mul_le_mul_left _ hW
  omega

theorem offset_no_wrap (s : Settings) (hw : 1 ≤ s.localNumberOfWorkers)
    (hsum : s.localSeedsToCheck + s.localNumberOfWorkers.toNat ≤ 2 ^ 64) (i k : Nat)
    (hi : (i : Int) < s.localNumberOfWorkers) (hk : k ≤ visitCount s i) :
    i + k * s.localNumberOfWorkers.toNat < 2 ^ 64 := by
  cases k with
  | zero => omega
  | succ j =>
    have h := (lt_visitCount_iff s hw i j).1 (by omega)
    have e : (j + 1) * s.localNumberOfWorkers.toNat
        = j * s.localNumberOfWorkers.toNat + s.localNumberOfWorkers.toNat := by ring
    rw [e]
    omega

theorem offset_candidate (s : Settings) (hw : 1 ≤ s.localNumberOfWorkers)
    (hsum : s.localSeedsToCheck + s.localNumberOfWorkers.toNat ≤ 2 ^ 64) (i k : Nat)
    (hi : (i : Int) < s.localNumberOfWorkers) (hk : k ≤ visitCount s i) :
    sub64 (candidate s i k) s.localStartSeed = i + k * s.localNumberOfWorkers.toNat := by
  have h := offset_no_wrap s hw hsum i k hi hk
  unfold candidate
  rw [Nat.add_assoc, sub64_add_left]
  exact Nat.mod_eq_of_lt h

theorem visits_computed (s : Settings) (hB : s.INPUT_FILEPATH = none) (hs : s.WellTyped)
    (hw : 1 ≤ s.localNumberOfWorkers)
    (hsum : s.localSeedsToCheck + s.localNumberOfWorkers.toNat ≤ 2 ^ 64) (i fuel : Nat)
    (hi : (i : Int) < s.localNumberOfWorkers) (hfuel : visitCount s i ≤ fuel) :
    visits s fuel (i : Int) = some ((List.range (visitCount s i)).map (candidate s i)) := by
  apply visits_cut s hB hs (by omega) i (visitCount s i) fuel _ _ hfuel
  · intro k hk
    rw [offset_candidate s hw hsum i k hi (by omega)]
    exact (lt_visitCount_iff s hw i k).1 hk
  · rw [offset_candidate s hw hsum i _ hi (Nat.le_refl _)]
    have h := (lt_visitCount_iff s hw i (visitCount s i)).not.1 (Nat.lt_irrefl _)
    omega

/-! ## The driver when both files are available -/

theorem main_runs (s : Settings) (fs : Files) (worker : Int → World → Option World)
    (hB : s.INPUT_FILEPATH = none)
    (hO : s.OUTPUT_FILEPATH = none ∨ fs.openOutput = true) (w3 : World)
    (hworker : worker 0 initialWorld = some w3) :
    main s fs worker = some
      { exitCode := 0,
        world := if s.TIME_PROGRAM then
            { w3 with stderr := w3.stderr ++ ["(elapsed seconds)\n"] }
          else w3,
        workerCalls := [0] } := by
  unfold main
  rcases hO with hO | hO
  · simp [hB, hO, hworker]
  · cases hp : s.OUTPUT_FILEPATH <;> simp [hB, hO, hworker]

/-! ## The range macro -/

theorem check_eq (startSeed : Nat) (h : startSeed < 2 ^ 64) :
    CHECK_THIS_SEED_AND_FOLLOWING startSeed
      = UINT64_MAX - startSeed + (if startSeed = 0 then 0 else 1) := by
  unfold CHECK_THIS_SEED_AND_FOLLOWING add64 sub64 logicalNot UINT64_MAX
  by_cases h0 : startSeed = 0
  · subst h0
    decide
  · simp only [h0, if_false, if_true]
    omega

/-- Claim C3, as the code has it: for every 64-bit start seed,
`CHECK_THIS_SEED_AND_FOLLOWING(startSeed)` is `UINT64_MAX - startSeed`, plus one
when `startSeed` is not zero, and the sum does not wrap; so the macro gives
`UINT64_MAX` at `0` and `UINT64_MAX - 4` at `5`. -/
theorem check_this_seed_and_following_value (startSeed : Nat) (h : startSeed < 2 ^ 64) :
    CHECK_THIS_SEED_AND_FOLLOWING startSeed
        = UINT64_MAX - startSeed + (if startSeed = 0 then 0 else 1) ∧
      UINT64_MAX - startSeed + (if startSeed = 0 then 0 else 1) < 2 ^ 64 ∧
      CHECK_THIS_SEED_AND_FOLLOWING 0 = UINT64_MAX ∧
      CHECK_THIS_SEED_AND_FOLLOWING 5 = UINT64_MAX - 4 := by
  refine ⟨check_eq startSeed h, ?_, by decide, by decide⟩
  · unfold UINT64_MAX
    split <;> omega

/-- Witness of `check_this_seed_and_following_value` at the start seed `7`. -/
theorem check_this_seed_and_following_value_witness :
    (7 : Nat) < 2 ^ 64 ∧ CHECK_THIS_SEED_AND_FOLLOWING 7 = UINT64_MAX - 7 + 1 :=
  ⟨by decide, (check_this_seed_and_following_value 7 (by decide)).1⟩

/-- Claim C3 as stated fails at the start seed `5`: the macro gives
`UINT64_MAX - 4`, which is not `UINT64_MAX - 5`, the value of
`UINT64_MAX - 5 + (1 if 5 == 0 else 0)`. -/
theorem check_this_seed_and_following_five :
    CHECK_THIS_SEED_AND_FOLLOWING 5 = UINT64_MAX - 4 ∧
      CHECK_THIS_SEED_AND_FOLLOWING 5 ≠ UINT64_MAX - 5 + (if (5 : Nat) = 0 then 1 else 0) := by
  decide

/-! ## The emulated atomics -/

/-- Claim C6: a call of `atomicAdd` with no other thread running returns the old
content of the address and leaves there the sum of the old content and `value`
modulo `2 ^ 64` (so a negative `value` subtracts); a call of `atomicOr` returns
the old content and leaves the bitwise OR of the old content and the bits. -/
theorem atomics_in_isolation (old : Nat) (value : Int) (bits : Nat) :
    atomicAdd old value = (old, (((old : Int) + value) % 2 ^ 64).toNat) ∧
      atomicOr old bits = (old, old ||| bits) := by
  constructor
  · simp only [atomicAdd, runFrame, atomicAddStep, add64, toU64]
    refine Prod.ext rfl ?_
    show (old + (value % 2 ^ 64).toNat) % 2 ^ 64 = (((old : Int) + value) % 2 ^ 64).toNat
    omega
  · simp [atomicOr, runFrame, atomicOrStep]

/-- Claim C7 at two concurrent calls `atomicAdd(address, 1)` on a counter that
starts at `0`: when both threads read `__temp` before either takes the mutex,
the counter ends at `2` but both calls return `0`; when the calls run one after
the other they return `0` and `1`. -/
theorem atomicAdd_two_threads_same_return :
    (AddSystem.run 1 (AddSystem.start 0 2) [0, 1, 0, 0, 0, 1, 1, 1]).heap
        = { cell := 2, mutexOwner := none } ∧
      (AddSystem.run 1 (AddSystem.start 0 2) [0, 1, 0, 0, 0, 1, 1, 1]).frames
        = [{ pc := 4, temp := 0 }, { pc := 4, temp := 0 }] ∧
      (AddSystem.run 1 (AddSystem.start 0 2) [0, 0, 0, 0, 1, 1, 1, 1]).frames
        = [{ pc := 4, temp := 0 }, { pc := 4, temp := 1 }] := by
  decide

/-! ## Process exit -/

/-- Claim C8: when a configured input file or a configured output file cannot
be opened, `main` ends with status `1`, the error stream holds exactly the
diagnostic of the failed `fopen` (the one for the input path when that open
fails, the one for the output path otherwise, each naming the path), no result
is emitted and `runWorker` is not called (the outcome is the same whatever
`runWorker` is); in every other case `main` calls `runWorker` once, and when
that call returns `main` returns `0`. -/
theorem main_exit_status (s : Settings) (fs : Files) (worker : Int → World → Option World) :
    ((s.INPUT_FILEPATH ≠ none ∧ fs.openInput = none) ∨
        (s.OUTPUT_FILEPATH ≠ none ∧ fs.openOutput = false) →
      ∃ o, main s fs worker = some o ∧ o.exitCode ≠ 0 ∧ o.world.stderr ≠ [] ∧
        o.workerCalls = [] ∧ o.world.outputFile = [] ∧ o.world.stdout = [] ∧
        (∀ other : Int → World → Option World, main s fs other = some o) ∧
        o.exitCode = 1 ∧
        (∀ path, s.INPUT_FILEPATH = some path → fs.openInput = none →
          o.world.stderr =
            ["Backends/Basic.c: main(): fopen(INPUT_FILEPATH, \"r\"): Failed to open "
              ++ path ++ ".\n"]) ∧
        (∀ path, s.OUTPUT_FILEPATH = some path →
          ¬ (s.INPUT_FILEPATH ≠ none ∧ fs.openInput = none) →
          o.world.stderr =
            ["Backends/Basic.c: main(): fopen(OUTPUT_FILEPATH, \"w\"): Failed to open "
              ++ path ++ ".\n"])) ∧
    (¬ ((s.INPUT_FILEPATH ≠ none ∧ fs.openInput = none) ∨
        (s.OUTPUT_FILEPATH ≠ none ∧ fs.openOutput = false)) →
      ∃ w2 : World, w2.stderr = [] ∧ w2.outputFile = [] ∧ w2.stdout = [] ∧
        (∀ w3, worker 0 w2 = some w3 →
          ∃ o, main s fs worker = some o ∧ o.exitCode = 0 ∧ o.workerCalls = [0]) ∧
        (worker 0 w2 = none → main s fs worker = none)) := by
  constructor
  · intro h
    cases hi : s.INPUT_FILEPATH with
    | none =>
      cases ho : s.OUTPUT_FILEPATH with
      | none => simp [hi, ho] at h
      | some q =>
        have hf : fs.openOutput = false := by simpa [hi, ho] using h
        simp [main, hi, ho, hf, RAISE_EXCEPTION_OR_QUIT, initialWorld]
    | some p =>
      cases hx : fs.openInput with
      | none => simp [main, hi, hx, RAISE_EXCEPTION_OR_QUIT, initialWorld]
      | some seeds =>
        cases ho : s.OUTPUT_FILEPATH with
        | none => simp [hi, ho, hx] at h
        | some q =>
          have hf : fs.openOutput = false := by simpa [hi, ho, hx] using h
          simp [main, hi, ho, hx, hf, RAISE_EXCEPTION_OR_QUIT, initialWorld]
  · intro h
    cases hi : s.INPUT_FILEPATH with
    | none =>
      refine ⟨initialWorld, rfl, rfl, rfl, ?_, ?_⟩
      · intro w3 hw
        cases ho : s.OUTPUT_FILEPATH with
        | none => simp [main, hi, ho, hw]
        | some q =>
          have hf : fs.openOutput = true := by simpa [hi, ho] using h
          simp [main, hi, ho, hf, hw]
      · intro hw
        cases ho : s.OUTPUT_FILEPATH with
        | none => simp [main, hi, ho, hw]
        | some q =>
          have hf : fs.openOutput = true := by simpa [hi, ho] using h
          simp [main, hi, ho, hf, hw]
    | some p =>
      cases hx : fs.openInput with
      | none => simp [hi, hx] at h
      | some seeds =>
        refine ⟨{ initialWorld with inputFile := seeds }, rfl, rfl, rfl, ?_, ?_⟩
        · intro w3 hw
          cases ho : s.OUTPUT_FILEPATH with
          | none => simp [main, hi, ho, hx, hw]
          | some q =>
            have hf : fs.openOutput = true := by simpa [hi, ho, hx] using h
            simp [main, hi, ho, hx, hf, hw]
        · intro hw
          cases ho : s.OUTPUT_FILEPATH with
          | none => simp [main, hi, ho, hx, hw]
          | some q =>
            have hf : fs.openOutput = true := by simpa [hi, ho, hx] using h
            simp [main, hi, ho, hx, hf, hw]

/-- Witness of `main_exit_status`: an output file that cannot be opened ends the
run with status `1` and the diagnostic naming it, an input file that cannot be
opened does the same with its own diagnostic, and a run with no files and a
worker that returns at once ends with status `0`. -/
theorem main_exit_status_witness :
    (∃ o, main ⟨none, some "out.txt", false, 0, 4, 1⟩ ⟨none, false⟩ (fun _ w => some w)
        = some o ∧ o.exitCode = 1 ∧ o.workerCalls = [] ∧
        o.world.stderr =
          ["Backends/Basic.c: main(): fopen(OUTPUT_FILEPATH, \"w\"): Failed to open "
            ++ "out.txt" ++ ".\n"]) ∧
      (∃ o, main ⟨some "in.txt", some "out.txt", false, 0, 4, 1⟩ ⟨none, false⟩
          (fun _ w => some w)
        = some o ∧ o.exitCode = 1 ∧ o.workerCalls = [] ∧
        o.world.stderr =
          ["Backends/Basic.c: main(): fopen(INPUT_FILEPATH, \"r\"): Failed to open "
            ++ "in.txt" ++ ".\n"]) ∧
      (∃ o, main ⟨none, none, false, 0, 4, 1⟩ ⟨none, false⟩ (fun _ w => some w)
        = some o ∧ o.exitCode = 0 ∧ o.workerCalls = [0]) := by
  refine ⟨?_, ?_, ?_⟩
  · obtain ⟨o, h1, _, _, h4, _, _, _, h8, _, h10⟩ :=
      (main_exit_status ⟨none, some "out.txt", false, 0, 4, 1⟩ ⟨none, false⟩
        (fun _ w => some w)).1 (Or.inr ⟨by simp, rfl⟩)
    exact ⟨o, h1, h8, h4, h10 "out.txt" rfl (by simp)⟩
  · obtain ⟨o, h1, _, _, h4, _, _, _, h8, h9, _⟩ :=
      (main_exit_status ⟨some "in.txt", some "out.txt", false, 0, 4, 1⟩ ⟨none, false⟩
        (fun _ w => some w)).1 (Or.inl ⟨by simp, rfl⟩)
    exact ⟨o, h1, h8, h4, h9 "in.txt" rfl rfl⟩
  · obtain ⟨w2, _, _, _, h, _⟩ :=
      (main_exit_status ⟨none, none, false, 0, 4, 1⟩ ⟨none, false⟩
        (fun _ w => some w)).2 (by simp)
    exact h w2 rfl

/-! ## Strided enumeration -/

theorem workerLoop_never_ends (s : Settings) (hB : s.INPUT_FILEPATH = none)
    (cond : Nat → Bool) :
    ∀ (fuel seed : Nat) (w : World),
      (∀ k, sub64 ((seed + (k + 1) * toU64 s.localNumberOfWorkers) % 2 ^ 64)
        s.localStartSeed < s.localSeedsToCheck) →
      workerLoop s cond fuel seed w = none := by
  intro fuel
  induction fuel with
  | zero => intro seed w _; rfl
  | succ f ih =>
    intro seed w hall
    have hyes : sub64 (add64 seed (toU64 s.localNumberOfWorkers)) s.localStartSeed
        < s.localSeedsToCheck := by
      have h := hall 0
      simp only [Nat.zero_add, Nat.one_mul] at h
      unfold add64
      exact h
    have hrec := ih (add64 seed (toU64 s.localNumberOfWorkers)) (examine s cond seed w)
      (by
        intro k
        have h := hall (k + 1)
        unfold add64
        rw [stride_shift]
        exact h)
    simp [workerLoop, getNextSeed_next s hB, hyes, hrec]

theorem visits_never_ends (s : Settings) (hB : s.INPUT_FILEPATH = none)
    (hs : s.WellTyped) (hw : 0 ≤ s.localNumberOfWorkers) (i : Nat)
    (hall : ∀ k, sub64 (candidate s i k) s.localStartSeed < s.localSeedsToCheck)
    (fuel : Nat) : visits s fuel (i : Int) = none := by
  have hc0 : candidate s i 0 = add64 (toU64 (i : Int)) s.localStartSeed := by
    rw [candidate_eq s hs hw, Nat.zero_mul, Nat.add_zero]
    exact Nat.mod_eq_of_lt (Nat.mod_lt _ (by norm_num))
  have hyes : sub64 (add64 (toU64 (i : Int)) s.localStartSeed) s.localStartSeed
      < s.localSeedsToCheck := by
    rw [← hc0]
    exact hall 0
  have hloop := workerLoop_never_ends s hB (fun _ => false) fuel
    (add64 (toU64 (i : Int)) s.localStartSeed) initialWorld
    (by
      intro k
      rw [← candidate_eq s hs hw]
      exact hall (k + 1))
  simp [visits, runWorker, getNextSeed_first s hB, hyes, hloop]

/-- Claim C2: without an input file and for a worker index `i` below the number
of workers, `getNextSeed` with the index stores `startValue + i`, `getNextSeed`
with `NULL` stores the previous value plus the number of workers, every call
returns false exactly when the stored value minus `startValue` (in `uint64_t`)
is at least `spaceSize`, and the worker visits `startValue + i`,
`startValue + i + workerCount`, … up to, and without, the first of these values
for which the call returns false (and never stops if there is none). -/
theorem strided_determinism (s : Settings) (hB : s.INPUT_FILEPATH = none)
    (hs : s.WellTyped) (i : Nat) (hi : (i : Int) < s.localNumberOfWorkers) :
    (∀ seed w, getNextSeed s (some (i : Int)) seed w
        = (decide (sub64 ((s.localStartSeed + i) % 2 ^ 64) s.localStartSeed
            < s.localSeedsToCheck), (s.localStartSeed + i) % 2 ^ 64, w)) ∧
      (∀ seed w, getNextSeed s none seed w
        = (decide (sub64 ((seed + s.localNumberOfWorkers.toNat) % 2 ^ 64) s.localStartSeed
            < s.localSeedsToCheck), (seed + s.localNumberOfWorkers.toNat) % 2 ^ 64, w)) ∧
      (∀ index seed w, (getNextSeed s index seed w).1 = false ↔
        s.localSeedsToCheck ≤ sub64 (getNextSeed s index seed w).2.1 s.localStartSeed) ∧
      (∀ n fuel, n ≤ fuel →
        (∀ k, k < n → sub64 (candidate s i k) s.localStartSeed < s.localSeedsToCheck) →
        s.localSeedsToCheck ≤ sub64 (candidate s i n) s.localStartSeed →
        visits s fuel (i : Int) = some ((List.range n).map (candidate s i))) ∧
      ((∀ k, sub64 (candidate s i k) s.localStartSeed < s.localSeedsToCheck) →
        ∀ fuel, visits s fuel (i : Int) = none) := by
  have hw : 0 ≤ s.localNumberOfWorkers := by omega
  have hW : toU64 s.localNumberOfWorkers = s.localNumberOfWorkers.toNat :=
    toU64_of_nonneg _ hw (by obtain ⟨_, _, _, h4⟩ := hs; omega)
  have hfirst : add64 (toU64 (i : Int)) s.localStartSeed = (s.localStartSeed + i) % 2 ^ 64 := by
    rw [toU64_natCast]
    unfold add64
    omega
  refine ⟨?_, ?_, ?_, ?_, ?_⟩
  · intro seed w
    rw [getNextSeed_first s hB, hfirst]
  · intro seed w
    rw [getNextSeed_next s hB, hW]
    rfl
  · intro index seed w
    cases index with
    | none => rw [getNextSeed_next s hB]; simp
    | some j => rw [getNextSeed_first s hB]; simp
  · intro n fuel hfuel hin hout
    exact visits_cut s hB hs hw i n fuel hin hout hfuel
  · intro hall fuel
    exact visits_never_ends s hB hs hw i hall fuel

/-- Witness of `strided_determinism`: worker `1` of two workers over the ten
values from `100` visits `101, 103, 105, 107, 109`. -/
theorem strided_determinism_witness :
    (⟨none, none, false, 100, 10, 2⟩ : Settings).INPUT_FILEPATH = none ∧
      ((1 : Nat) : Int) < (⟨none, none, false, 100, 10, 2⟩ : Settings).localNumberOfWorkers ∧
      visits ⟨none, none, false, 100, 10, 2⟩ 5 ((1 : Nat) : Int)
        = some ((List.range 5).map (candidate ⟨none, none, false, 100, 10, 2⟩ 1)) :=
  ⟨rfl, by decide,
    (strided_determinism ⟨none, none, false, 100, 10, 2⟩ rfl
      ⟨by decide, by decide, by decide, by decide⟩ 1 (by decide)).2.2.2.1 5 5
      (Nat.le_refl 5) (by decide) (by decide)⟩

/-- Claim C9: without an input file, with at least one worker and with
`spaceSize + workerCount ≤ 2 ^ 64`, the loop of worker `i` ends (any fuel of at
least the number of visits is enough) after exactly
`ceil((spaceSize - i) / workerCount)` candidates when `i < spaceSize` and after
none otherwise, and up to and including the value that ends the loop the offset
`seed - startValue` is `i + k * workerCount` without wrapping. -/
theorem worker_terminates_without_wrap (s : Settings) (hB : s.INPUT_FILEPATH = none)
    (hs : s.WellTyped) (hw : 1 ≤ s.localNumberOfWorkers)
    (hsum : s.localSeedsToCheck + s.localNumberOfWorkers.toNat ≤ 2 ^ 64)
    (i : Nat) (hi : (i : Int) < s.localNumberOfWorkers)
    (fuel : Nat) (hfuel : visitCount s i ≤ fuel) :
    (∃ l, visits s fuel (i : Int) = some l ∧ l.length = visitCount s i ∧
        l = (List.range (visitCount s i)).map (candidate s i)) ∧
      (i < s.localSeedsToCheck →
        (visitCount s i - 1) * s.localNumberOfWorkers.toNat < s.localSeedsToCheck - i ∧
        s.localSeedsToCheck - i ≤ visitCount s i * s.localNumberOfWorkers.toNat) ∧
      (s.localSeedsToCheck ≤ i → visitCount s i = 0) ∧
      (∀ k, k ≤ visitCount s i →
        i + k * s.localNumberOfWorkers.toNat < 2 ^ 64 ∧
        sub64 (candidate s i k) s.localStartSeed = i + k * s.localNumberOfWorkers.toNat) ∧
      s.localSeedsToCheck ≤ sub64 (candidate s i (visitCount s i)) s.localStartSeed := by
  have hlast := (lt_visitCount_iff s hw i (visitCount s i)).not.1 (Nat.lt_irrefl _)
  refine ⟨⟨_, visits_computed s hB hs hw hsum i fuel hi hfuel, by simp, rfl⟩, ?_, ?_, ?_, ?_⟩
  · intro hlt
    have hpos : 0 < visitCount s i := (lt_visitCount_iff s hw i 0).2 (by omega)
    have hprev := (lt_visitCount_iff s hw i (visitCount s i - 1)).1 (by omega)
    omega
  · intro hge
    unfold visitCount
    rw [if_neg (by omega)]
  · intro k hk
    exact ⟨offset_no_wrap s hw hsum i k hi hk, offset_candidate s hw hsum i k hi hk⟩
  · rw [offset_candidate s hw hsum i _ hi (Nat.le_refl _)]
    omega

/-- Witness of `worker_terminates_without_wrap`: worker `1` of three workers
over the ten values from `100`. -/
theorem worker_terminates_without_wrap_witness :
    (1 : Int) ≤ (⟨none, none, false, 100, 10, 3⟩ : Settings).localNumberOfWorkers ∧
      (⟨none, none, false, 100, 10, 3⟩ : Settings).localSeedsToCheck
        + (⟨none, none, false, 100, 10, 3⟩ : Settings).localNumberOfWorkers.toNat ≤ 2 ^ 64 ∧
      ∃ l, visits ⟨none, none, false, 100, 10, 3⟩ 3 ((1 : Nat) : Int) = some l ∧
        l.length = visitCount ⟨none, none, false, 100, 10, 3⟩ 1 ∧
        l = (List.range (visitCount ⟨none, none, false, 100, 10, 3⟩ 1)).map
          (candidate ⟨none, none, false, 100, 10, 3⟩ 1) :=
  ⟨by decide, by decide,
    (worker_terminates_without_wrap ⟨none, none, false, 100, 10, 3⟩ rfl
      ⟨by decide, by decide, by decide, by decide⟩ (by decide) (by decide) 1 (by decide)
      3 (by decide)).1⟩

/-! ## Runs of the driver over a computed range -/

theorem main_computed (s : Settings) (fs : Files) (cond : Nat → Bool) (fuel : Nat)
    (hB : s.INPUT_FILEPATH = none) (hs : s.WellTyped) (hw : 1 ≤ s.localNumberOfWorkers)
    (hsum : s.localSeedsToCheck + s.localNumberOfWorkers.toNat ≤ 2 ^ 64)
    (hO : s.OUTPUT_FILEPATH = none ∨ fs.openOutput = true)
    (hfuel : visitCount s 0 ≤ fuel) :
    ∃ o, main s fs (runWorker s cond fuel) = some o ∧ o.exitCode = 0 ∧
      o.workerCalls = [0] ∧
      o.world.examined = (List.range (visitCount s 0)).map (candidate s 0) ∧
      emitted s o.world = ((List.range (visitCount s 0)).map (candidate s 0)).filter cond := by
  have hi : ((0 : Nat) : Int) < s.localNumberOfWorkers := by omega
  have hrun : runWorker s cond fuel 0 initialWorld = some (examineAll s cond initialWorld
      ((List.range (visitCount s 0)).map (candidate s 0))) := by
    have h := runWorker_cut s hB hs (by omega) cond 0 (visitCount s 0) fuel initialWorld
      (by
        intro k hk
        rw [offset_candidate s hw hsum 0 k hi (by omega)]
        exact (lt_visitCount_iff s hw 0 k).1 hk)
      (by
        rw [offset_candidate s hw hsum 0 _ hi (Nat.le_refl _)]
        have h := (lt_visitCount_iff s hw 0 (visitCount s 0)).not.1 (Nat.lt_irrefl _)
        omega)
      hfuel
    exact h
  refine ⟨_, main_runs s fs _ hB hO _ hrun, rfl, rfl, ?_, ?_⟩
  · cases s.TIME_PROGRAM <;> simp [examineAll_examined, initialWorld]
  · have he := examineAll_emitted s cond
      ((List.range (visitCount s 0)).map (candidate s 0)) initialWorld
    have h0 : emitted s initialWorld = [] := by
      unfold emitted initialWorld
      cases s.OUTPUT_FILEPATH <;> rfl
    rw [h0, List.nil_append] at he
    rw [← he]
    cases s.TIME_PROGRAM
    · rfl
    · unfold emitted
      cases s.OUTPUT_FILEPATH <;> rfl

/-- Claim C5: with start value `100`, space size `10`, two workers, no input
file, an output destination that opens, and a `runWorker` that follows the
documented loop and reports exactly the even candidates, a run of `main` emits
`100, 102, 104, 106, 108` and nothing else, and returns `0`; any fuel of at
least five iterations is enough. -/
theorem end_to_end_even (out : Option String) (timed : Bool) (fs : Files) (fuel : Nat)
    (hO : out = none ∨ fs.openOutput = true) (hfuel : 5 ≤ fuel) :
    ∃ o, main ⟨none, out, timed, 100, 10, 2⟩ fs
        (runWorker ⟨none, out, timed, 100, 10, 2⟩ (fun v => v % 2 == 0) fuel) = some o ∧
      emitted ⟨none, out, timed, 100, 10, 2⟩ o.world = [100, 102, 104, 106, 108] ∧
      o.exitCode = 0 := by
  have hclosed : visitCount ⟨none, out, timed, 100, 10, 2⟩ 0
      = visitCount ⟨none, none, false, 100, 10, 2⟩ 0 := rfl
  have hvc : visitCount ⟨none, out, timed, 100, 10, 2⟩ 0 = 5 := by
    rw [hclosed]
    decide
  have hcand : candidate ⟨none, out, timed, 100, 10, 2⟩ 0
      = candidate ⟨none, none, false, 100, 10, 2⟩ 0 := rfl
  obtain ⟨o, h1, h2, _, _, h5⟩ := main_computed ⟨none, out, timed, 100, 10, 2⟩ fs
    (fun v => v % 2 == 0) fuel rfl
    ⟨show (100 : Nat) < 2 ^ 64 by decide, show (10 : Nat) < 2 ^ 64 by decide,
      show -2 ^ 31 ≤ (2 : Int) by decide, show (2 : Int) < 2 ^ 31 by decide⟩
    (show (1 : Int) ≤ 2 by decide) (show 10 + (2 : Int).toNat ≤ 2 ^ 64 by decide) hO
    (by rw [hvc]; exact hfuel)
  refine ⟨o, h1, ?_, h2⟩
  rw [h5, hvc, hcand]
  decide

/-- Witness of `end_to_end_even`: standard output, no timing, fuel `5`. -/
theorem end_to_end_even_witness :
    ((none : Option String) = none ∨ (⟨none, false⟩ : Files).openOutput = true) ∧
      (5 : Nat) ≤ 5 ∧
      ∃ o, main ⟨none, none, false, 100, 10, 2⟩ ⟨none, false⟩
          (runWorker ⟨none, none, false, 100, 10, 2⟩ (fun v => v % 2 == 0) 5) = some o ∧
        emitted ⟨none, none, false, 100, 10, 2⟩ o.world = [100, 102, 104, 106, 108] ∧
        o.exitCode = 0 :=
  ⟨Or.inl rfl, Nat.le_refl 5,
    end_to_end_even none false ⟨none, false⟩ 5 (Or.inl rfl) (Nat.le_refl 5)⟩

/-- Claim C10: without an input file, with at least two workers, a space of at
least two values, `spaceSize + workerCount ≤ 2 ^ 64`, an output destination that
opens and a `runWorker` that follows the documented loop, `main` calls
`runWorker` once, with index `0`; the candidates examined are
`startValue + k * workerCount` for the `k` with `k * workerCount < spaceSize`,
and `startValue + 1`, which lies inside the space, is not among them. -/
theorem main_runs_only_worker_zero (s : Settings) (fs : Files) (cond : Nat → Bool)
    (fuel : Nat) (hB : s.INPUT_FILEPATH = none) (hs : s.WellTyped)
    (hw : 2 ≤ s.localNumberOfWorkers) (hsz : 2 ≤ s.localSeedsToCheck)
    (hsum : s.localSeedsToCheck + s.localNumberOfWorkers.toNat ≤ 2 ^ 64)
    (hO : s.OUTPUT_FILEPATH = none ∨ fs.openOutput = true)
    (hfuel : visitCount s 0 ≤ fuel) :
    ∃ o, main s fs (runWorker s cond fuel) = some o ∧ o.workerCalls = [0] ∧
      o.world.examined = (List.range (visitCount s 0)).map
        (fun k => (s.localStartSeed + k * s.localNumberOfWorkers.toNat) % 2 ^ 64) ∧
      (∀ k, k < visitCount s 0 ↔ k * s.localNumberOfWorkers.toNat < s.localSeedsToCheck) ∧
      sub64 ((s.localStartSeed + 1) % 2 ^ 64) s.localStartSeed < s.localSeedsToCheck ∧
      (s.localStartSeed + 1) % 2 ^ 64 ∉ o.world.examined := by
  have hw1 : 1 ≤ s.localNumberOfWorkers := by omega
  have hi : ((0 : Nat) : Int) < s.localNumberOfWorkers := by omega
  obtain ⟨o, h1, _, h3, h4, _⟩ := main_computed s fs cond fuel hB hs hw1 hsum hO hfuel
  have hcount : ∀ k, k < visitCount s 0 ↔
      k * s.localNumberOfWorkers.toNat < s.localSeedsToCheck := by
    intro k
    rw [lt_visitCount_iff s hw1 0 k, Nat.zero_add]
  refine ⟨o, h1, h3, ?_, hcount, ?_, ?_⟩
  · rw [h4]
    apply List.map_congr_left
    intro k _
    unfold candidate
    rw [Nat.add_zero]
  · rw [sub64_add_left]
    omega
  · rw [h4]
    intro hmem
    obtain ⟨k, hk, hkeq⟩ := List.mem_map.1 hmem
    have hklt : k < visitCount s 0 := List.mem_range.1 hk
    have hno := offset_no_wrap s hw1 hsum 0 k hi (by omega)
    have hin := (hcount k).1 hklt
    have hstart : s.localStartSeed < 2 ^ 64 := hs.1
    unfold candidate at hkeq
    have hk1 : k * s.localNumberOfWorkers.toNat = 1 := by omega
    have hW : 2 ≤ s.localNumberOfWorkers.toNat := by omega
    cases k with
    | zero => omega
    | succ j =>
      have e : (j + 1) * s.localNumberOfWorkers.toNat
          = j * s.localNumberOfWorkers.toNat + s.localNumberOfWorkers.toNat := by ring
      omega

/-- Witness of `main_runs_only_worker_zero`: two workers over the ten values
from `100`, standard output. -/
theorem main_runs_only_worker_zero_witness :
    (2 : Int) ≤ (⟨none, none, false, 100, 10, 2⟩ : Settings).localNumberOfWorkers ∧
      2 ≤ (⟨none, none, false, 100, 10, 2⟩ : Settings).localSeedsToCheck ∧
      ∃ o, main ⟨none, none, false, 100, 10, 2⟩ ⟨none, false⟩
          (runWorker ⟨none, none, false, 100, 10, 2⟩ (fun _ => true) 5) = some o ∧
        o.workerCalls = [0] ∧ (100 + 1) % 2 ^ 64 ∉ o.world.examined := by
  refine ⟨by decide, by decide, ?_⟩
  obtain ⟨o, h1, h2, _, _, _, h6⟩ :=
    main_runs_only_worker_zero ⟨none, none, false, 100, 10, 2⟩ ⟨none, false⟩
      (fun _ => true) 5 rfl ⟨by decide, by decide, by decide, by decide⟩ (by decide)
      (by decide) (by decide) (Or.inl rfl) (by decide)
  exact ⟨o, h1, h2, h6⟩

/-! ## Partition of the space among the workers -/

theorem offset_inj (a x y : Nat) (hx : x < 2 ^ 64) (hy : y < 2 ^ 64)
    (h : (a + x) % 2 ^ 64 = (a + y) % 2 ^ 64) : x = y := by
  omega

theorem visitsOfWorkers_spec (s : Settings) (hB : s.INPUT_FILEPATH = none)
    (hs : s.WellTyped) (hw : 1 ≤ s.localNumberOfWorkers)
    (hsum : s.localSeedsToCheck + s.localNumberOfWorkers.toNat ≤ 2 ^ 64)
    (fuel : Nat) (hfuel : s.localSeedsToCheck ≤ fuel) :
    ∀ n : Nat, (n : Int) ≤ s.localNumberOfWorkers →
      ∃ acc, visitsOfWorkers s fuel n = some acc ∧ acc.Nodup ∧
        ∀ x, x ∈ acc ↔ ∃ i k, i < n ∧
          i + k * s.localNumberOfWorkers.toNat < s.localSeedsToCheck ∧
          x = (s.localStartSeed + (i + k * s.localNumberOfWorkers.toNat)) % 2 ^ 64 := by
  have hW : 0 < s.localNumberOfWorkers.toNat := by omega
  have hszM : s.localSeedsToCheck < 2 ^ 64 := hs.2.1
  intro n
  induction n with
  | zero =>
    intro _
    refine ⟨[], rfl, List.nodup_nil, ?_⟩
    intro x
    constructor
    · intro h; simp at h
    · rintro ⟨i, k, hi, _⟩; omega
  | succ n ih =>
    intro hn
    obtain ⟨acc, hacc, hnd, hmem⟩ := ih (by omega)
    have hnW : (n : Int) < s.localNumberOfWorkers := by omega
    have hvis := visits_computed s hB hs hw hsum n fuel hnW
      (Nat.le_trans (visitCount_le s hw n) hfuel)
    have hl : ∀ x, x ∈ (List.range (visitCount s n)).map (candidate s n) ↔
        ∃ k, n + k * s.localNumberOfWorkers.toNat < s.localSeedsToCheck ∧
          x = (s.localStartSeed + (n + k * s.localNumberOfWorkers.toNat)) % 2 ^ 64 := by
      intro x
      rw [List.mem_map]
      constructor
      · rintro ⟨k, hk, rfl⟩
        refine ⟨k, (lt_visitCount_iff s hw n k).1 (List.mem_range.1 hk), ?_⟩
        unfold candidate
        rw [Nat.add_assoc]
      · rintro ⟨k, hk, rfl⟩
        refine ⟨k, List.mem_range.2 ((lt_visitCount_iff s hw n k).2 hk), ?_⟩
        unfold candidate
        rw [Nat.add_assoc]
    refine ⟨acc ++ (List.range (visitCount s n)).map (candidate s n), ?_, ?_, ?_⟩
    · simp [visitsOfWorkers, hacc, hvis]
    · apply List.Nodup.append hnd
      · apply List.Nodup.map_on _ (List.nodup_range _)
        intro k1 hk1 k2 hk2 heq
        have h1 := (lt_visitCount_iff s hw n k1).1 (List.mem_range.1 hk1)
        have h2 := (lt_visitCount_iff s hw n k2).1 (List.mem_range.1 hk2)
        unfold candidate at heq
        rw [Nat.add_assoc, Nat.add_assoc] at heq
        have h3 := offset_inj _ _ _ (by omega) (by omega) heq
        exact Nat.eq_of_mul_eq_mul_right hW (by omega)
      · intro x hx1 hx2
        obtain ⟨i, k, hi, hik, hxi⟩ := (hmem x).1 hx1
        obtain ⟨k2, hk2, hxn⟩ := (hl x).1 hx2
        rw [hxi] at hxn
        have h3 := offset_inj _ _ _ (by omega) (by omega) hxn
        have h4 : (i + k * s.localNumberOfWorkers.toNat) % s.localNumberOfWorkers.toNat
            = (n + k2 * s.localNumberOfWorkers.toNat) % s.localNumberOfWorkers.toNat := by
          rw [h3]
        rw [Nat.add_mul_mod_self_right, Nat.add_mul_mod_self_right,
          Nat.mod_eq_of_lt (by omega), Nat.mod_eq_of_lt (by omega)] at h4
        omega
    · intro x
      rw [List.mem_append, hmem x, hl x]
      constructor
      · rintro (⟨i, k, hi, h⟩ | ⟨k, h⟩)
        · exact ⟨i, k, by omega, h⟩
        · exact ⟨n, k, by omega, h⟩
      · rintro ⟨i, k, hi, h⟩
        by_cases hin : i < n
        · exact Or.inl ⟨i, k, hin, h⟩
        · have : i = n := by omega
          subst this
          exact Or.inr ⟨k, h⟩

theorem searchSpace_nodup (s : Settings) (hs : s.WellTyped) : (searchSpace s).Nodup := by
  have hszM : s.localSeedsToCheck < 2 ^ 64 := hs.2.1
  unfold searchSpace
  apply List.Nodup.map_on _ (List.nodup_range _)
  intro a ha b hb heq
  have h1 := List.mem_range.1 ha
  have h2 := List.mem_range.1 hb
  exact offset_inj _ _ _ (by omega) (by omega) heq

/-- The partition while the stride cannot wrap: without an input file, for
every start value, every number of workers of at least one and every space size
with `spaceSize + workerCount ≤ 2 ^ 64`, the loops of the workers
`0, …, workerCount - 1` all end (a fuel of `spaceSize` is enough), and the values
they visit are together exactly `startValue, …, startValue + spaceSize - 1` (in
`uint64_t`), each of them once. -/
theorem partition_complete (s : Settings) (hB : s.INPUT_FILEPATH = none)
    (hs : s.WellTyped) (hw : 1 ≤ s.localNumberOfWorkers)
    (hsum : s.localSeedsToCheck + s.localNumberOfWorkers.toNat ≤ 2 ^ 64)
    (fuel : Nat) (hfuel : s.localSeedsToCheck ≤ fuel) :
    ∃ l, visitsOfWorkers s fuel s.localNumberOfWorkers.toNat = some l ∧
      l.Perm (searchSpace s) ∧ l.Nodup ∧ (searchSpace s).Nodup := by
  have hW : 0 < s.localNumberOfWorkers.toNat := by omega
  obtain ⟨l, hl, hnd, hmem⟩ := visitsOfWorkers_spec s hB hs hw hsum fuel hfuel
    s.localNumberOfWorkers.toNat (by omega)
  refine ⟨l, hl, ?_, hnd, searchSpace_nodup s hs⟩
  rw [List.perm_ext_iff_of_nodup hnd (searchSpace_nodup s hs)]
  intro x
  rw [hmem x]
  unfold searchSpace
  rw [List.mem_map]
  constructor
  · rintro ⟨i, k, _, hik, rfl⟩
    exact ⟨i + k * s.localNumberOfWorkers.toNat, List.mem_range.2 hik, rfl⟩
  · rintro ⟨o, ho, rfl⟩
    have hdiv := Nat.mod_add_div' o s.localNumberOfWorkers.toNat
    refine ⟨o % s.localNumberOfWorkers.toNat, o / s.localNumberOfWorkers.toNat,
      Nat.mod_lt _ hW, ?_, ?_⟩
    · rw [hdiv]
      exact List.mem_range.1 ho
    · rw [hdiv]

/-- Witness of `partition_complete`: three workers over the ten values from
`100`. -/
theorem partition_complete_witness :
    (1 : Int) ≤ (⟨none, none, false, 100, 10, 3⟩ : Settings).localNumberOfWorkers ∧
      (⟨none, none, false, 100, 10, 3⟩ : Settings).localSeedsToCheck
        + (⟨none, none, false, 100, 10, 3⟩ : Settings).localNumberOfWorkers.toNat ≤ 2 ^ 64 ∧
      ∃ l, visitsOfWorkers ⟨none, none, false, 100, 10, 3⟩ 10 3 = some l ∧
        l.Perm (searchSpace ⟨none, none, false, 100, 10, 3⟩) ∧ l.Nodup := by
  refine ⟨by decide, by decide, ?_⟩
  obtain ⟨l, h1, h2, h3, _⟩ :=
    partition_complete ⟨none, none, false, 100, 10, 3⟩ rfl
      ⟨by decide, by decide, by decide, by decide⟩ (by decide) (by decide)
      10 (by decide)
  exact ⟨l, h1, h2, h3⟩

/-- Claim C1 at two workers and the space size `2 ^ 64 - 1` that
`CHECK_THIS_SEED_AND_FOLLOWING(0)` gives for the start value `0`: at the seed
`2 ^ 64 - 2` the stride of `getNextSeed` wraps to `0`, the call returns true and
hands out the start value a second time; the offsets of worker `0` are even, so
they stay below the space size for ever and its loop never ends, and no run of
the two workers yields the values of the space once each. -/
theorem partition_fails_when_stride_wraps :
    CHECK_THIS_SEED_AND_FOLLOWING 0 = 2 ^ 64 - 1 ∧
      getNextSeed ⟨none, none, false, 0, 2 ^ 64 - 1, 2⟩ none (2 ^ 64 - 2) initialWorld
        = (true, 0, initialWorld) ∧
      ¬ ∃ fuel l, visitsOfWorkers ⟨none, none, false, 0, 2 ^ 64 - 1, 2⟩ fuel 2 = some l ∧
        l.Perm (searchSpace ⟨none, none, false, 0, 2 ^ 64 - 1, 2⟩) ∧ l.Nodup := by
  refine ⟨by decide, by decide, ?_⟩
  rintro ⟨fuel, l, h, _⟩
  have hnone : visits ⟨none, none, false, 0, 2 ^ 64 - 1, 2⟩ fuel ((0 : Nat) : Int) = none := by
    apply visits_never_ends _ rfl ⟨by decide, by decide, by decide, by decide⟩ (by decide)
    intro k
    show sub64 ((0 + 0 + k * 2) % 2 ^ 64) 0 < 2 ^ 64 - 1
    unfold sub64
    omega
  have h1 : visitsOfWorkers ⟨none, none, false, 0, 2 ^ 64 - 1, 2⟩ fuel 1 = none := by
    rw [visitsOfWorkers, hnone]
    rfl
  have h2 : visitsOfWorkers ⟨none, none, false, 0, 2 ^ 64 - 1, 2⟩ fuel 2 = none := by
    rw [visitsOfWorkers, h1]
  rw [h2] at h
  cases h

/-! ## One worker over the range given by the macro -/

theorem visits_single_worker (s : Settings) (hB : s.INPUT_FILEPATH = none)
    (hs : s.WellTyped) (hwc : s.localNumberOfWorkers = 1)
    (hfit : s.localStartSeed + s.localSeedsToCheck ≤ 2 ^ 64)
    (fuel : Nat) (hfuel : s.localSeedsToCheck ≤ fuel) :
    visits s fuel 0 = some (List.range' s.localStartSeed s.localSeedsToCheck) := by
  have hw : 1 ≤ s.localNumberOfWorkers := by omega
  have hW : s.localNumberOfWorkers.toNat = 1 := by omega
  have hszM : s.localSeedsToCheck < 2 ^ 64 := hs.2.1
  have hcount : visitCount s 0 = s.localSeedsToCheck := by
    have h1 := visitCount_le s hw 0
    have h2 := (lt_visitCount_iff s hw 0 (visitCount s 0)).not.1 (Nat.lt_irrefl _)
    rw [hW] at h2
    omega
  have hv := visits_computed s hB hs hw (by omega) 0 fuel (by omega) (by omega)
  rw [hcount] at hv
  have hlist : (List.range s.localSeedsToCheck).map (candidate s 0)
      = List.range' s.localStartSeed s.localSeedsToCheck := by
    rw [List.range'_eq_map_range]
    apply List.map_congr_left
    intro k hk
    have hk2 := List.mem_range.1 hk
    unfold candidate
    rw [hW]
    omega
  rw [hlist] at hv
  exact hv

/-- Claim C4, as the code has it: with one worker and the space size given by
`CHECK_THIS_SEED_AND_FOLLOWING(startValue)`, the loop of the worker ends and
visits `startValue, startValue + 1, …` in increasing order, each value once;
for a start value from `1` to `UINT64_MAX` these are all the values up to
`UINT64_MAX`, for the start value `0` they are the values up to
`UINT64_MAX - 1`; the call of `getNextSeed` after the last of them returns
false. -/
theorem sentinel_enumeration (s : Settings) (hB : s.INPUT_FILEPATH = none)
    (hs : s.WellTyped) (hwc : s.localNumberOfWorkers = 1)
    (hsz : s.localSeedsToCheck = CHECK_THIS_SEED_AND_FOLLOWING s.localStartSeed)
    (fuel : Nat) (hfuel : s.localSeedsToCheck ≤ fuel) :
    visits s fuel 0 = some (List.range' s.localStartSeed s.localSeedsToCheck) ∧
      (List.range' s.localStartSeed s.localSeedsToCheck).Pairwise (fun a b => a < b) ∧
      (0 < s.localStartSeed →
        ∀ v, v ∈ List.range' s.localStartSeed s.localSeedsToCheck ↔
          s.localStartSeed ≤ v ∧ v ≤ UINT64_MAX) ∧
      (s.localStartSeed = 0 →
        ∀ v, v ∈ List.range' s.localStartSeed s.localSeedsToCheck ↔ v < UINT64_MAX) ∧
      (∀ w, (getNextSeed s none (s.localStartSeed + s.localSeedsToCheck - 1) w).1 = false) := by
  have hstart : s.localStartSeed < 2 ^ 64 := hs.1
  have hcheck := check_eq s.localStartSeed hstart
  rw [← hsz] at hcheck
  unfold UINT64_MAX at hcheck
  have hW : toU64 s.localNumberOfWorkers = 1 := by
    rw [hwc]
    decide
  refine ⟨?_, List.pairwise_lt_range' _ _, ?_, ?_, ?_⟩
  · apply visits_single_worker s hB hs hwc _ fuel hfuel
    split at hcheck <;> omega
  · intro hpos v
    rw [List.mem_range'_1]
    unfold UINT64_MAX
    rw [if_neg (by omega)] at hcheck
    omega
  · intro hzero v
    rw [List.mem_range'_1]
    unfold UINT64_MAX
    rw [if_pos hzero] at hcheck
    omega
  · intro w
    rw [getNextSeed_next s hB, hW]
    have hnot : ¬ sub64 (add64 (s.localStartSeed + s.localSeedsToCheck - 1) 1)
        s.localStartSeed < s.localSeedsToCheck := by
      unfold sub64 add64
      split at hcheck <;> omega
    simp [hnot]

/-- Witness of `sentinel_enumeration`: from the start value `UINT64_MAX` the
macro gives a space of one value, and the worker visits `UINT64_MAX` alone. -/
theorem sentinel_enumeration_witness :
    (⟨none, none, false, 2 ^ 64 - 1, 1, 1⟩ : Settings).localSeedsToCheck
        = CHECK_THIS_SEED_AND_FOLLOWING
          (⟨none, none, false, 2 ^ 64 - 1, 1, 1⟩ : Settings).localStartSeed ∧
      visits ⟨none, none, false, 2 ^ 64 - 1, 1, 1⟩ 1 0 = some (List.range' (2 ^ 64 - 1) 1) :=
  ⟨by decide,
    (sentinel_enumeration ⟨none, none, false, 2 ^ 64 - 1, 1, 1⟩ rfl
      ⟨by decide, by decide, by decide, by decide⟩ rfl (by decide) 1 (by decide)).1⟩

/-- Claim C4 as stated fails at the start value `0`: the macro gives the space
size `UINT64_MAX`, and no run of the single worker visits `UINT64_MAX`. -/
theorem sentinel_from_zero_misses_last :
    CHECK_THIS_SEED_AND_FOLLOWING 0 = UINT64_MAX ∧
      ¬ ∃ fuel l, visits ⟨none, none, false, 0, CHECK_THIS_SEED_AND_FOLLOWING 0, 1⟩ fuel 0
        = some l ∧ UINT64_MAX ∈ l := by
  refine ⟨by decide, ?_⟩
  rintro ⟨fuel, l, h, hmem⟩
  have hv := visits_single_worker ⟨none, none, false, 0, CHECK_THIS_SEED_AND_FOLLOWING 0, 1⟩
    rfl ⟨by decide, by decide, by decide, by decide⟩ rfl (by decide)
    (CHECK_THIS_SEED_AND_FOLLOWING 0) (Nat.le_refl _)
  have hl := visits_unique _ _ _ _ _ _ h hv
  rw [hl] at hmem
  have hm := List.mem_range'_1.1 hmem
  have hc : CHECK_THIS_SEED_AND_FOLLOWING 0 = 2 ^ 64 - 1 := by decide
  have hu : UINT64_MAX = 2 ^ 64 - 1 := rfl
  have hm2 : UINT64_MAX < 0 + CHECK_THIS_SEED_AND_FOLLOWING 0 := hm.2
  rw [hc, hu] at hm2
  omega

end SeedFinding
